import Mathlib

/-!
Verification of the egglog-python declaration layer.

This file gives a shallow embedding of the core of the repository
(`src/python/egglog/egraph.py` and `src/python/egg_smol/registry.py`) in
Lean 4 and proves or refutes the frozen claims about it.

The declaration data model (the `egglog.declarations` module: `ExprDecl`,
`TypedExprDecl`, `CallableRef`, type references, and the engine
serialization `to_egg` / `from_egg`) is not part of the provided sources;
where a definition must come from that module it is modelled from the
specification and marked `Modelled from the spec:` in its doc comment.
Everything else is translated directly from the Python source.
-/

namespace Egglog

/-- Modelled from the spec: literal values of the declaration layer,
"signed 64-bit integer | string | float | bool".  A float literal is
carried as its (opaque) bit pattern so that serialization is exact. -/
inductive LitDecl where
  | int (value : Int)
  | str (value : String)
  | bool (value : Bool)
  | float (bits : Nat)
deriving DecidableEq

/-- Modelled from the spec: callable identity keys, "one of {Function(name),
Method(sort,name), ClassMethod(sort,name), Constant(name),
ClassVariable(sort,name)}". -/
inductive CallableRef where
  | function (name : String)
  | method (className : String) (name : String)
  | classMethod (className : String) (name : String)
  | constant (name : String)
  | classVariable (className : String) (name : String)
deriving DecidableEq

/-- Modelled from the spec: the term tree `ExprDecl`, "one of {Var(name),
Lit(literal value), Call(CallableRef, ordered arg ExprDecls)}". -/
inductive ExprDecl where
  | var (name : String)
  | lit (value : LitDecl)
  | call (ref : CallableRef) (args : List ExprDecl)

/-- Modelled from the spec: a fully resolved type reference
`JustTypeRef(name, args)`, "the only form sent to the engine". -/
inductive JustTypeRef where
  | mk (name : String) (args : List JustTypeRef)

mutual

/-- Structural Boolean equality on `JustTypeRef` (dataclass equality). -/
def JustTypeRef.beq : JustTypeRef → JustTypeRef → Bool
  | .mk n1 a1, .mk n2 a2 => n1 == n2 && JustTypeRef.beqList a1 a2

/-- Structural Boolean equality on lists of `JustTypeRef`. -/
def JustTypeRef.beqList : List JustTypeRef → List JustTypeRef → Bool
  | [], [] => true
  | x :: xs, y :: ys => JustTypeRef.beq x y && JustTypeRef.beqList xs ys
  | _, _ => false

end

mutual

theorem JustTypeRef.beq_eq_true_iff : ∀ a b : JustTypeRef, JustTypeRef.beq a b = true ↔ a = b
  | .mk n1 a1, .mk n2 a2 => by
    simp only [JustTypeRef.beq, Bool.and_eq_true, beq_iff_eq, JustTypeRef.mk.injEq]
    constructor
    · rintro ⟨h1, h2⟩
      exact ⟨h1, (JustTypeRef.beqList_eq_true_iff a1 a2).mp h2⟩
    · rintro ⟨h1, h2⟩
      exact ⟨h1, (JustTypeRef.beqList_eq_true_iff a1 a2).mpr h2⟩

theorem JustTypeRef.beqList_eq_true_iff :
    ∀ as bs : List JustTypeRef, JustTypeRef.beqList as bs = true ↔ as = bs
  | [], [] => by simp [JustTypeRef.beqList]
  | [], _ :: _ => by simp [JustTypeRef.beqList]
  | _ :: _, [] => by simp [JustTypeRef.beqList]
  | x :: xs, y :: ys => by
    simp only [JustTypeRef.beqList, Bool.and_eq_true, List.cons.injEq]
    constructor
    · rintro ⟨h1, h2⟩
      exact ⟨(JustTypeRef.beq_eq_true_iff x y).mp h1, (JustTypeRef.beqList_eq_true_iff xs ys).mp h2⟩
    · rintro ⟨h1, h2⟩
      exact ⟨(JustTypeRef.beq_eq_true_iff x y).mpr h1, (JustTypeRef.beqList_eq_true_iff xs ys).mpr h2⟩

end

instance : DecidableEq JustTypeRef := fun a b =>
  decidable_of_iff (JustTypeRef.beq a b = true) (JustTypeRef.beq_eq_true_iff a b)

/-- Type references that may still contain class-type-variable placeholders:
`ClassTypeVarRef(index)` and `TypeRefWithVars(name, args)` (the
`TypeOrVarRef` union of `egraph.py`). -/
inductive TypeOrVarRef where
  | classTypeVar (index : Nat)
  | withVars (name : String) (args : List TypeOrVarRef)

/-- Modelled from the spec: `TypedExprDecl` "pairs an ExprDecl with its
resolved JustTypeRef". -/
structure TypedExprDecl where
  tp : JustTypeRef
  expr : ExprDecl

/-- The resolved signature stored for a callable, as constructed by
`_BaseModule._register_function` (`egraph.py` line 408):
`FunctionDecl(return_type=..., var_arg_type=..., arg_types=...)`. -/
structure FunctionDecl where
  argTypes : List TypeOrVarRef
  returnType : TypeOrVarRef
  varArgType : Option TypeOrVarRef

/-- Modelled from the spec: the `Eq` fact carries a list of expression
declarations.  `_EqBuilder.to` (`egraph.py` line 934) builds
`Eq(tuple(expr_parts(e).expr for e in (self.expr, *exprs)))`. -/
structure EqDecl where
  exprs : List ExprDecl

/-- Action declarations (spec data model: Let, Set, Union, Delete, Panic,
plus bare expression actions). -/
inductive ActionDecl where
  | letAction (name : String) (expr : ExprDecl)
  | set (call : ExprDecl) (rhs : ExprDecl)
  | union (lhs : ExprDecl) (rhs : ExprDecl)
  | delete (call : ExprDecl)
  | panicAction (message : String)
  | exprAction (expr : ExprDecl)

/-- Whether an expression declaration is a `Call` node (the
`isinstance(decl, CallDecl)` test of the source). -/
def ExprDecl.isCall : ExprDecl → Bool
  | .call _ _ => true
  | _ => false

/-- `eq(e).to(e1, ..., en)`: `_EqBuilder.to` of `egraph.py` lines 929-937,
at the level of expression declarations.  The builder holds the
declaration of the expression passed to `eq` and prepends it to the
declarations of the arguments of `to`. -/
def eqBuilderTo (expr : ExprDecl) (exprs : List ExprDecl) : EqDecl :=
  ⟨expr :: exprs⟩

/-- Errors raised at expression/action build time (`ValueError` in the
source). -/
inductive BuildError where
  | deleteNonCall
  | setNonCall
deriving DecidableEq

/-- `delete(expr)` of `egraph.py` lines 850-855: fails unless the
underlying declaration is a `Call` node. -/
def deleteAction (expr : ExprDecl) : Except BuildError ActionDecl :=
  match expr with
  | .call ref args => .ok (.delete (.call ref args))
  | _ => .error .deleteNonCall

/-- `_SetBuilder.to` of `egraph.py` lines 940-948: fails unless the
declaration of the `set_` lhs is a `Call` node. -/
def setBuilderTo (lhs : ExprDecl) (rhs : ExprDecl) : Except BuildError ActionDecl :=
  match lhs with
  | .call ref args => .ok (.set (.call ref args) rhs)
  | _ => .error .setNonCall

/-! ## Session scope stack (`EGraph.push` / `EGraph.pop`)

`EGraph.push` (lines 719-725) runs `self._decl_stack.append(self._mod_decls._decl)`
followed by `self._decls = deepcopy(self._mod_decls._decl)`; `EGraph.pop`
(lines 727-732) runs `self._mod_decls._decl = self._decl_stack.pop()`.
Because the Python `Declarations` object is mutated in place by
registration calls and shared by reference, the embedding uses an explicit
store of `Declarations` objects addressed by `Nat`, with `declAddr` playing
the role of the `self._mod_decls._decl` reference, `declStack` the role of
`self._decl_stack` (a Python list: append/pop act on the end), and
`declsAttr` the role of the otherwise unused `self._decls` attribute that
`push` writes.  The engine-side `Push(1)`/`Pop(1)` commands are owned by the
external engine and are not modelled. -/

/-- The contents of one `Declarations` registry object, abstracted for the
scope-stack claims to the sequence of registered names (`Declarations` is
"mutated only by registration calls"). -/
abbrev Declarations := List String

/-- The state of a live `EGraph` session relevant to push/pop: a store of
`Declarations` objects and the references into it. -/
structure EGraphState where
  store : List Declarations
  declAddr : Nat
  declStack : List Nat
  declsAttr : Option Nat
deriving DecidableEq

/-- The `Declarations` object currently referenced by `_mod_decls._decl`. -/
def EGraphState.currentDecls (s : EGraphState) : Declarations :=
  s.store.getD s.declAddr []

/-- A registration call: mutates the `Declarations` object referenced by
`_mod_decls._decl` in place (e.g. `register_callable_ref`,
`egraph.py` line 225). -/
def EGraphState.registerName (s : EGraphState) (name : String) : EGraphState :=
  { s with store := s.store.set s.declAddr (s.currentDecls ++ [name]) }

/-- `EGraph.push`, `egraph.py` lines 719-725: appends the reference held in
`_mod_decls._decl` to `_decl_stack`, then assigns a deep copy of that
object to the attribute `_decls` (which nothing ever reads);
`_mod_decls._decl` itself is left pointing at the object that was pushed. -/
def EGraphState.push (s : EGraphState) : EGraphState :=
  { s with
    declStack := s.declStack ++ [s.declAddr]
    store := s.store ++ [s.currentDecls]
    declsAttr := some s.store.length }

/-- The failure of `EGraph.pop` on an empty scope stack: Python
`list.pop()` on an empty list raises `IndexError` (the spec's
`ScopeStackError`). -/
inductive PopError where
  | emptyDeclStack
deriving DecidableEq

/-- `EGraph.pop`, `egraph.py` lines 727-732: `self._mod_decls._decl =
self._decl_stack.pop()`; `list.pop()` removes and returns the last
element and raises on an empty list. -/
def EGraphState.pop (s : EGraphState) : Except PopError EGraphState :=
  match s.declStack.getLast? with
  | none => .error .emptyDeclStack
  | some addr => .ok { s with declAddr := addr, declStack := s.declStack.dropLast }

/-- A freshly constructed session: one empty `Declarations` object,
referenced by `_mod_decls._decl`, an empty scope stack. -/
def initialEGraphState : EGraphState :=
  ⟨[[]], 0, [], none⟩

/-! ## Theorems for claims C1, C5, C7, C8 -/

/-- C1: the claim states that `push(); <registrations>; pop()` leaves the
declaration set identical to its pre-push state.  The code violates it:
starting from a fresh session, after `push()`, one registration of `"f"`,
and `pop()`, the current declaration set is `["f"]`, not the pre-push
empty set — `push` stores its deep-copied snapshot in the unused
attribute `_decls` instead of replacing `_mod_decls._decl`, so the stack
entry aliases the live object that registration mutates. -/
theorem c1_pop_does_not_restore_declarations :
    ((initialEGraphState.push.registerName "f").pop).map EGraphState.currentDecls
        = Except.ok ["f"]
      ∧ initialEGraphState.currentDecls = [] := by
  constructor <;> rfl

/-- C5 counterexample: the claim states every `Eq` built by the builder has
at least 2 members, but `eq(e).to()` with zero arguments builds an `Eq`
whose list has length 1. -/
theorem c5_counterexample :
    ¬ 2 ≤ (eqBuilderTo (ExprDecl.var "x") []).exprs.length := by
  simp [eqBuilderTo]

/-- C5 (amended): `eq(e).to(e1, ..., en)` builds an `Eq` whose expression
list has length `n + 1`; the list has at least 2 members exactly when at
least one argument is passed to `to` — the zero-argument call constructs
a singleton `Eq`, so the builder itself does not enforce the ≥ 2
invariant. -/
theorem c5_eq_builder_length (e : ExprDecl) (es : List ExprDecl) :
    (eqBuilderTo e es).exprs.length = es.length + 1
      ∧ (es ≠ [] → 2 ≤ (eqBuilderTo e es).exprs.length) := by
  refine ⟨by simp [eqBuilderTo], fun h => ?_⟩
  have hpos : 0 < es.length := List.length_pos.mpr h
  simp only [eqBuilderTo, List.length_cons]
  omega

/-- C5 witness: with one argument the built `Eq` has 2 members. -/
theorem c5_witness :
    2 ≤ (eqBuilderTo (ExprDecl.var "x") [ExprDecl.var "y"]).exprs.length :=
  (c5_eq_builder_length (ExprDecl.var "x") [ExprDecl.var "y"]).2 (by simp)

/-- C7: `delete(expr)` and `set_(lhs).to(rhs)` fail if and only if the
underlying expression declaration is not a `Call` node; on a `Call` node
they return the corresponding `Delete`/`Set` action without error. -/
theorem c7_delete_set_require_call (e : ExprDecl) (rhs : ExprDecl) :
    ((∃ err, deleteAction e = .error err) ↔ e.isCall = false)
      ∧ (e.isCall = true → deleteAction e = .ok (.delete e))
      ∧ ((∃ err, setBuilderTo e rhs = .error err) ↔ e.isCall = false)
      ∧ (e.isCall = true → setBuilderTo e rhs = .ok (.set e rhs)) := by
  cases e <;> simp [deleteAction, setBuilderTo, ExprDecl.isCall]

/-- C7 witness: deleting a concrete call succeeds with the `Delete` action
on that call. -/
theorem c7_witness :
    deleteAction (ExprDecl.call (CallableRef.function "f") [])
      = .ok (.delete (ExprDecl.call (CallableRef.function "f") [])) :=
  (c7_delete_set_require_call (ExprDecl.call (CallableRef.function "f") [])
    (ExprDecl.var "y")).2.1 rfl

/-- C8: `pop()` on a session whose scope stack is empty fails (Python
`list.pop()` raises `IndexError`, the spec's `ScopeStackError`); it never
silently succeeds with no prior push. -/
theorem c8_pop_empty_stack_fails (s : EGraphState) (h : s.declStack = []) :
    s.pop = Except.error PopError.emptyDeclStack := by
  simp [EGraphState.pop, h]

/-- C8 witness: the fresh session has an empty scope stack and `pop` on it
fails. -/
theorem c8_witness :
    initialEGraphState.pop = Except.error PopError.emptyDeclStack :=
  c8_pop_empty_stack_fails initialEGraphState rfl

/-! ## Module composition (`_BaseModule.__post_init__`, C2)

`_BaseModule.__post_init__` (`egraph.py` lines 107-115) flattens the
dependency DAG: for each dependency `mod`, it walks `[*mod._flatted_deps,
mod]` and appends each module not already present to `self._flatted_deps`.
`EGraph.__post_init__` (lines 587-590) then replays `m._cmds` for each `m`
of the flattened list in order.  A `Module` stores its own already
flattened dependency list and its command list; Python `in` compares
modules by structural (dataclass) equality, mirrored by `Module.beq`. -/

section Dedup

variable {α : Type} [DecidableEq α]

/-- One step of the flattening loop: `if child_mod not in self._flatted_deps:
self._flatted_deps.append(child_mod)`. -/
def addNovel (acc : List α) (c : α) : List α :=
  if c ∈ acc then acc else acc ++ [c]

/-- Keep-first deduplication of a list: the result of folding `addNovel`
from the empty accumulator. -/
def dedupFirst (l : List α) : List α := l.foldl addNovel []

/-- Boolean non-membership, used as the filter predicate below. -/
def notMemB (acc : List α) (x : α) : Bool := decide (x ∉ acc)

theorem mem_addNovel (acc : List α) (c x : α) :
    x ∈ addNovel acc c ↔ x ∈ acc ∨ x = c := by
  unfold addNovel
  split
  next h =>
    constructor
    · exact Or.inl
    · rintro (hx | rfl)
      · exact hx
      · exact h
  next h => simp

theorem nodup_addNovel (acc : List α) (c : α) (h : acc.Nodup) :
    (addNovel acc c).Nodup := by
  unfold addNovel
  split
  · exact h
  next hc => simp [List.nodup_append, h, hc]

theorem mem_foldl_addNovel (l : List α) :
    ∀ (acc : List α) (x : α), x ∈ l.foldl addNovel acc ↔ x ∈ acc ∨ x ∈ l := by
  induction l with
  | nil => simp
  | cons a l ih =>
    intro acc x
    simp only [List.foldl_cons, ih, mem_addNovel, List.mem_cons]
    tauto

theorem nodup_foldl_addNovel (l : List α) :
    ∀ acc : List α, acc.Nodup → (l.foldl addNovel acc).Nodup := by
  induction l with
  | nil => intro acc h; simpa using h
  | cons a l ih => intro acc h; exact ih _ (nodup_addNovel _ _ h)

theorem foldl_addNovel_eq_append_filter (l : List α) :
    ∀ acc : List α, l.foldl addNovel acc
      = acc ++ (dedupFirst l).filter (notMemB acc) := by
  induction l with
  | nil => intro acc; simp [dedupFirst]
  | cons a l ih =>
    intro acc
    have hl : dedupFirst (a :: l) = [a] ++ (dedupFirst l).filter (notMemB [a]) := by
      show List.foldl addNovel [] (a :: l) = _
      rw [List.foldl_cons]
      have h0 : addNovel ([] : List α) a = [a] := by simp [addNovel]
      rw [h0, ih [a]]
    rw [List.foldl_cons, ih (addNovel acc a), hl]
    by_cases hmem : a ∈ acc
    · have h1 : addNovel acc a = acc := by simp [addNovel, hmem]
      rw [h1]
      congr 1
      rw [List.filter_append, List.filter_filter]
      have h2 : List.filter (notMemB acc) [a] = [] := by simp [notMemB, hmem]
      rw [h2, List.nil_append]
      apply List.filter_congr
      intro x _
      by_cases hx : x ∈ acc
      · simp [notMemB, hx]
      · have hxa : x ≠ a := fun he => hx (he ▸ hmem)
        simp [notMemB, hx, hxa]
    · have h1 : addNovel acc a = acc ++ [a] := by simp [addNovel, hmem]
      rw [h1, List.append_assoc]
      congr 1
      rw [List.filter_append, List.filter_filter]
      have h2 : List.filter (notMemB acc) [a] = [a] := by simp [notMemB, hmem]
      rw [h2]
      congr 1
      apply List.filter_congr
      intro x _
      by_cases hx1 : x = a
      · subst hx1; simp [notMemB, List.mem_append, hmem]
      · by_cases hx2 : x ∈ acc <;> simp [notMemB, List.mem_append, hx1, hx2]

theorem dedupFirst_cons (a : α) (l : List α) :
    dedupFirst (a :: l) = a :: (dedupFirst l).filter (notMemB [a]) := by
  show List.foldl addNovel [] (a :: l) = _
  rw [List.foldl_cons]
  have h0 : addNovel ([] : List α) a = [a] := by simp [addNovel]
  rw [h0, foldl_addNovel_eq_append_filter l [a]]
  rfl

theorem nodup_dedupFirst (l : List α) : (dedupFirst l).Nodup :=
  nodup_foldl_addNovel l [] List.nodup_nil

theorem mem_dedupFirst (l : List α) (x : α) : x ∈ dedupFirst l ↔ x ∈ l := by
  simpa using mem_foldl_addNovel l [] x

/-- The deduplicated list enumerates elements in order of first encounter:
it is pairwise strictly sorted by index of first occurrence in `l`. -/
theorem pairwise_indexOf_dedupFirst (l : List α) :
    (dedupFirst l).Pairwise (fun a b => l.indexOf a < l.indexOf b) := by
  induction l with
  | nil => simp [dedupFirst]
  | cons a l ih =>
    rw [dedupFirst_cons]
    refine List.pairwise_cons.mpr ⟨?_, ?_⟩
    · intro b hb
      have hba : b ≠ a := by
        have := (List.mem_filter.mp hb).2
        simpa [notMemB] using this
      rw [List.indexOf_cons_self, List.indexOf_cons_ne _ (Ne.symm hba)]
      omega
    · have hfil : ((dedupFirst l).filter (notMemB [a])).Pairwise
          (fun x y => l.indexOf x < l.indexOf y) :=
        List.Pairwise.sublist (List.filter_sublist _) ih
      refine hfil.imp_of_mem ?_
      intro x y hx hy hxy
      have hxa : x ≠ a := by
        have := (List.mem_filter.mp hx).2
        simpa [notMemB] using this
      have hya : y ≠ a := by
        have := (List.mem_filter.mp hy).2
        simpa [notMemB] using this
      rw [List.indexOf_cons_ne _ (Ne.symm hxa), List.indexOf_cons_ne _ (Ne.symm hya)]
      omega

end Dedup

/-- A declaration+command unit: the `Module` dataclass stores the flattened
dependency list `_flatted_deps` computed at construction time and the
recorded command list `_cmds`.  The engine commands themselves are opaque
to the flattening and are carried as strings. -/
inductive Module where
  | mk (flattedDeps : List Module) (cmds : List String)

mutual

/-- Structural (dataclass) equality on modules, as used by the Python
membership test `child_mod not in self._flatted_deps`. -/
def Module.beq : Module → Module → Bool
  | .mk f1 c1, .mk f2 c2 => Module.beqList f1 f2 && c1 == c2

/-- Structural equality on lists of modules. -/
def Module.beqList : List Module → List Module → Bool
  | [], [] => true
  | x :: xs, y :: ys => Module.beq x y && Module.beqList xs ys
  | _, _ => false

end

mutual

theorem Module.beq_agrees : ∀ a b : Module, Module.beq a b = true ↔ a = b
  | .mk f1 c1, .mk f2 c2 => by
    simp only [Module.beq, Bool.and_eq_true, beq_iff_eq, Module.mk.injEq]
    constructor
    · rintro ⟨h1, h2⟩
      exact ⟨(Module.beqList_agrees f1 f2).mp h1, h2⟩
    · rintro ⟨h1, h2⟩
      exact ⟨(Module.beqList_agrees f1 f2).mpr h1, h2⟩

theorem Module.beqList_agrees : ∀ as bs : List Module, Module.beqList as bs = true ↔ as = bs
  | [], [] => by simp [Module.beqList]
  | [], _ :: _ => by simp [Module.beqList]
  | _ :: _, [] => by simp [Module.beqList]
  | x :: xs, y :: ys => by
    simp only [Module.beqList, Bool.and_eq_true, List.cons.injEq]
    constructor
    · rintro ⟨h1, h2⟩
      exact ⟨(Module.beq_agrees x y).mp h1, (Module.beqList_agrees xs ys).mp h2⟩
    · rintro ⟨h1, h2⟩
      exact ⟨(Module.beq_agrees x y).mpr h1, (Module.beqList_agrees xs ys).mpr h2⟩

end

instance : DecidableEq Module := fun a b =>
  decidable_of_iff (Module.beq a b = true) (Module.beq_agrees a b)

/-- Projection: the stored flattened dependency list of a module. -/
def Module.flattedDeps : Module → List Module
  | .mk f _ => f

/-- Projection: the recorded command list of a module. -/
def Module.cmds : Module → List String
  | .mk _ c => c

/-- `_BaseModule.__post_init__`, `egraph.py` lines 107-115: flatten the
direct dependencies.  For each `mod` of `deps`, walk
`[*mod._flatted_deps, mod]` and append every module not already seen. -/
def postInitFlattedDeps (deps : List Module) : List Module :=
  deps.foldl (fun acc mod => (mod.flattedDeps ++ [mod]).foldl addNovel acc) []

/-- The raw (non-deduplicated) dependency traversal: the concatenation of
`[*mod._flatted_deps, mod]` over the direct dependencies in order. -/
def fullTraversal : List Module → List Module
  | [] => []
  | m :: ms => (m.flattedDeps ++ [m]) ++ fullTraversal ms

/-- Concatenation of the command lists of a list of modules. -/
def joinCmds : List Module → List String
  | [] => []
  | m :: ms => m.cmds ++ joinCmds ms

/-- `EGraph.__post_init__`, `egraph.py` lines 587-590: after flattening,
replay `m._cmds` for each module of the flattened list in order.  The
result is the full command sequence sent to the engine. -/
def egraphReplayCmds (deps : List Module) : List String :=
  (postInitFlattedDeps deps).foldl (fun sent m => sent ++ m.cmds) []

theorem foldl_append_cmds (l : List Module) :
    ∀ acc : List String, l.foldl (fun sent m => sent ++ m.cmds) acc = acc ++ joinCmds l := by
  induction l with
  | nil => intro acc; simp [joinCmds]
  | cons m ms ih => intro acc; simp [joinCmds, ih]

theorem postInitFlattedDeps_eq_dedupFirst (deps : List Module) :
    postInitFlattedDeps deps = dedupFirst (fullTraversal deps) := by
  have key : ∀ (ds : List Module) (acc : List Module),
      ds.foldl (fun acc mod => (mod.flattedDeps ++ [mod]).foldl addNovel acc) acc
        = (fullTraversal ds).foldl addNovel acc := by
    intro ds
    induction ds with
    | nil => intro acc; simp [fullTraversal]
    | cons m ms ih =>
      intro acc
      rw [List.foldl_cons, ih, fullTraversal]
      simp [List.foldl_append]
  exact key deps []

/-- C2: module composition flattens transitive dependencies into one
duplicate-free, order-preserving sequence.  The flattened list has no
duplicates; it contains exactly the modules of the raw dependency
traversal; each reachable module (in particular one reached via two
different dependents) appears in it exactly once; its order is the order
of first encounter in the traversal; and the composed command sequence
replayed by `EGraph.__post_init__` is the concatenation of command lists
over this deduplicated module list. -/
theorem c2_module_composition_dedup (deps : List Module) :
    (postInitFlattedDeps deps).Nodup
      ∧ (∀ m : Module, m ∈ postInitFlattedDeps deps ↔ m ∈ fullTraversal deps)
      ∧ (∀ m : Module, m ∈ fullTraversal deps → (postInitFlattedDeps deps).count m = 1)
      ∧ (postInitFlattedDeps deps).Pairwise
          (fun a b => (fullTraversal deps).indexOf a < (fullTraversal deps).indexOf b)
      ∧ egraphReplayCmds deps = joinCmds (postInitFlattedDeps deps) := by
  rw [postInitFlattedDeps_eq_dedupFirst]
  refine ⟨nodup_dedupFirst _, fun m => mem_dedupFirst _ m, ?_, pairwise_indexOf_dedupFirst _, ?_⟩
  · intro m hm
    have hmem : m ∈ dedupFirst (fullTraversal deps) := (mem_dedupFirst _ m).mpr hm
    exact List.count_eq_one_of_mem (nodup_dedupFirst _) hmem
  · rw [egraphReplayCmds, postInitFlattedDeps_eq_dedupFirst, foldl_append_cmds, List.nil_append]

/-- A shared base module for the C2 witness. -/
def baseModule : Module := .mk [] ["declare-base"]

/-- A first dependent of `baseModule`; its flattened dependency list is
what `Module([baseModule])` would store. -/
def depModule1 : Module := .mk [baseModule] ["declare-d1"]

/-- A second dependent of `baseModule`. -/
def depModule2 : Module := .mk [baseModule] ["declare-d2"]

/-- C2 witness: composing the two dependents, the shared base module
appears exactly once in the flattened sequence. -/
theorem c2_witness :
    (postInitFlattedDeps [depModule1, depModule2]).count baseModule = 1 :=
  (c2_module_composition_dedup [depModule1, depModule2]).2.2.1 baseModule
    (by simp [fullTraversal, depModule1, depModule2, Module.flattedDeps])

/-! ## Type annotation resolution (`_BaseModule._resolve_type_annotation`, C3)

`egraph.py` lines 415-455.  The Python values that can reach the resolver
are modelled by `PyAnn`: a `TypeVar` object, the classes `int`/`str`/`float`
(members of promotion unions), a `Union[...]` annotation, the raw class
object currently being registered (`tp == cls_type_and_name[0]`), a
`_GenericAlias` whose origin is that class, a `RuntimeClass` /
`RuntimeParamaterizedClass` standing for a registered sort (carrying the
value of `class_to_ref(tp).to_var()`), or anything else. -/

/-- A Python type annotation as inspected by `_resolve_type_annotation`. -/
inductive PyAnn where
  | typeVar (id : Nat)
  | primInt
  | primStr
  | primFloat
  | union (args : List PyAnn)
  | selfCls
  | selfGeneric (args : List PyAnn)
  | registeredSort (ref : TypeOrVarRef)
  | unsupported

/-- Membership test `tp in {int, str, float}` of line 430/431. -/
def isPromotionPrim : PyAnn → Bool
  | .primInt => true
  | .primStr => true
  | .primFloat => true
  | _ => false

/-- Python `list.index`: position of the first occurrence, or `none`
(where Python raises `ValueError`). -/
def listIndexOf : List Nat → Nat → Option Nat
  | [], _ => none
  | x :: xs, id => if x = id then some 0 else (listIndexOf xs id).map (· + 1)

/-- Errors of annotation resolution (`TypeError`/`ValueError` at lines
422, 427, 433, 455). -/
inductive ResolveError where
  | typeVarNotFound
  | unionNotTwoMembers
  | unionNotPromotion
  | unexpectedAnn
deriving DecidableEq

mutual

/-- `_BaseModule._resolve_type_annotation`, `egraph.py` lines 415-455:
a bare type variable becomes a `ClassTypeVarRef` at its declared position;
a 2-member union whose first member is `int`/`str`/`float` resolves to the
resolution of the second member (and symmetrically), any other union
shape fails; the raw class under registration becomes a bare
`TypeRefWithVars`; a generic alias of that class resolves its arguments
recursively; a registered sort yields `class_to_ref(tp).to_var()`; and
anything else fails. -/
def resolveTypeAnn : PyAnn → List Nat → Option String → Except ResolveError TypeOrVarRef
  | .typeVar id, clsTypevars, _ =>
    match listIndexOf clsTypevars id with
    | some i => .ok (.classTypeVar i)
    | none => .error .typeVarNotFound
  | .union [fst, snd], clsTypevars, ctn =>
    if isPromotionPrim fst then resolveTypeAnn snd clsTypevars ctn
    else if isPromotionPrim snd then resolveTypeAnn fst clsTypevars ctn
    else .error .unionNotPromotion
  | .union _, _, _ => .error .unionNotTwoMembers
  | .selfCls, _, ctn =>
    match ctn with
    | some clsName => .ok (.withVars clsName [])
    | none => .error .unexpectedAnn
  | .selfGeneric args, clsTypevars, ctn =>
    match ctn with
    | some clsName =>
      match resolveAnnList args clsTypevars ctn with
      | .ok rs => .ok (.withVars clsName rs)
      | .error e => .error e
    | none => .error .unexpectedAnn
  | .registeredSort ref, _, _ => .ok ref
  | .primInt, _, _ => .error .unexpectedAnn
  | .primStr, _, _ => .error .unexpectedAnn
  | .primFloat, _, _ => .error .unexpectedAnn
  | .unsupported, _, _ => .error .unexpectedAnn

/-- Resolution of a tuple of annotation arguments, in order, failing on
the first failure. -/
def resolveAnnList : List PyAnn → List Nat → Option String → Except ResolveError (List TypeOrVarRef)
  | [], _, _ => .ok []
  | a :: as, clsTypevars, ctn =>
    match resolveTypeAnn a clsTypevars ctn with
    | .ok r =>
      match resolveAnnList as clsTypevars ctn with
      | .ok rs => .ok (r :: rs)
      | .error e => .error e
    | .error e => .error e

end

/-- C3 counterexample: the claim states that a 2-member union in which
neither member is resolvable as a registered sort fails; but
`Union[int, T]` with `T` a class type variable resolves successfully to
`ClassTypeVarRef 0` instead of failing. -/
theorem c3_counterexample :
    resolveTypeAnn (.union [.primInt, .typeVar 7]) [7] none
        = .ok (.classTypeVar 0)
      ∧ ∀ e, resolveTypeAnn (.union [.primInt, .typeVar 7]) [7] none
        ≠ .error e := by
  refine ⟨rfl, fun e h => ?_⟩
  rw [show resolveTypeAnn (.union [.primInt, .typeVar 7]) [7] none
      = .ok (.classTypeVar 0) from rfl] at h
  simp at h

/-- C3 (amended): a union with other than 2 members fails; a 2-member
union with no primitive-literal member fails; a 2-member union with a
primitive-literal member delegates resolution to the other member
(succeeding if and only if that member resolves, e.g. also for class type
variables and enclosing-class generics, not only registered sorts); in
particular, when the other member is a registered sort the result is the
sort member's type reference. -/
theorem c3_union_resolution (clsTypevars : List Nat) (ctn : Option String) :
    (∀ args : List PyAnn, args.length ≠ 2 →
        resolveTypeAnn (.union args) clsTypevars ctn = .error .unionNotTwoMembers)
      ∧ (∀ fst snd : PyAnn, isPromotionPrim fst = false → isPromotionPrim snd = false →
        resolveTypeAnn (.union [fst, snd]) clsTypevars ctn = .error .unionNotPromotion)
      ∧ (∀ fst snd : PyAnn, isPromotionPrim fst = true →
        resolveTypeAnn (.union [fst, snd]) clsTypevars ctn
          = resolveTypeAnn snd clsTypevars ctn)
      ∧ (∀ fst snd : PyAnn, isPromotionPrim fst = false → isPromotionPrim snd = true →
        resolveTypeAnn (.union [fst, snd]) clsTypevars ctn
          = resolveTypeAnn fst clsTypevars ctn)
      ∧ (∀ (p : PyAnn) (ref : TypeOrVarRef), isPromotionPrim p = true →
        resolveTypeAnn (.union [p, .registeredSort ref]) clsTypevars ctn = .ok ref
          ∧ resolveTypeAnn (.union [.registeredSort ref, p]) clsTypevars ctn = .ok ref) := by
  refine ⟨?_, ?_, ?_, ?_, ?_⟩
  · intro args hlen
    match args with
    | [] => rfl
    | [_] => rfl
    | [_, _] => exact absurd rfl hlen
    | _ :: _ :: _ :: _ => rfl
  · intro fst snd h1 h2
    simp [resolveTypeAnn, h1, h2]
  · intro fst snd h1
    simp [resolveTypeAnn, h1]
  · intro fst snd h1 h2
    simp [resolveTypeAnn, h1, h2]
  · intro p ref hp
    constructor
    · simp [resolveTypeAnn, hp]
    · have : isPromotionPrim (.registeredSort ref) = false := rfl
      simp [resolveTypeAnn, this, hp]

/-- C3 witness: `Union[int, Sort]` with `Sort` a registered sort resolves
to the sort's type reference. -/
theorem c3_witness :
    resolveTypeAnn (.union [.primInt, .registeredSort (.withVars "Math" [])]) [] none
      = .ok (.withVars "Math" []) :=
  ((c3_union_resolution [] none).2.2.2.2 .primInt (.withVars "Math" []) rfl).1

/-! ## Function registration (`_BaseModule._register_function`, C4 and C6)

`egraph.py` lines 327-413.  A signature parameter carries a name, a
parameter kind, and an optional annotation (`none` models
`Parameter.empty`; the `hints[name]` lookup is modelled by reading the
parameter's annotation, a `KeyError` when absent). -/

/-- The `inspect.Parameter.kind` values distinguished by the source:
`POSITIONAL_OR_KEYWORD`, `VAR_POSITIONAL`, and everything else. -/
inductive ParamKind where
  | positionalOrKeyword
  | varPositional
  | otherKind
deriving DecidableEq

/-- One parameter of the wrapped Python function's signature. -/
structure Param where
  name : String
  kind : ParamKind
  ann : Option PyAnn

/-- The `first_arg` argument of `_register_function`: `None`, the literal
string `"cls"`, or a self type reference (a `ClassTypeVarRef` or
`TypeRefWithVars` value). -/
inductive FirstArg where
  | noFirst
  | clsMarker
  | selfType (t : TypeOrVarRef)

/-- Errors of `_register_function` (`ValueError`/`KeyError` at lines
356, 366, 372, 377, and failed annotation resolution). -/
inductive RegError where
  | initWithoutSelfType
  | firstArgAnnotated
  | unpackEmptyParams
  | varArgNotAtEnd
  | unsupportedParamKind
  | missingHint
  | resolveFailed (e : ResolveError)
deriving DecidableEq

/-- Resolution of one parameter's annotation: the `hints[t.name]` lookup
followed by `_resolve_type_annotation`. -/
def resolveHint (p : Param) (clsTypevars : List Nat) (ctn : Option String) :
    Except RegError TypeOrVarRef :=
  match p.ann with
  | none => .error .missingHint
  | some a =>
    match resolveTypeAnn a clsTypevars ctn with
    | .ok r => .ok r
    | .error e => .error (.resolveFailed e)

/-- Resolution of a list of parameters in order (the `arg_types` tuple
comprehension of line 384). -/
def resolveParams : List Param → List Nat → Option String → Except RegError (List TypeOrVarRef)
  | [], _, _ => .ok []
  | p :: ps, clsTypevars, ctn =>
    match resolveHint p clsTypevars ctn with
    | .ok t =>
      match resolveParams ps clsTypevars ctn with
      | .ok ts => .ok (t :: ts)
      | .error e => .error e
    | .error e => .error e

/-- The return type computation of lines 353-359: for `__init__` the
first argument must be a self type reference and becomes the return
type, otherwise the `return` hint is resolved. -/
def resolveReturnType (isInit : Bool) (firstArg : FirstArg) (returnAnn : Option PyAnn)
    (clsTypevars : List Nat) (ctn : Option String) : Except RegError TypeOrVarRef :=
  if isInit then
    match firstArg with
    | .selfType t => .ok t
    | _ => .error .initWithoutSelfType
  else
    match returnAnn with
    | none => .error .missingHint
    | some a =>
      match resolveTypeAnn a clsTypevars ctn with
      | .ok r => .ok r
      | .error e => .error (.resolveFailed e)

/-- Lines 362-366: when a first arg is supplied, strip the first
parameter (`first, *params = params`, raising on an empty list) and
require it to carry no annotation. -/
def stripFirstParam (firstArg : FirstArg) (params0 : List Param) :
    Except RegError (List Param) :=
  match firstArg with
  | .noFirst => .ok params0
  | _ =>
    match params0 with
    | [] => .error .unpackEmptyParams
    | first :: rest =>
      if first.ann.isSome then .error .firstArgAnnotated else .ok rest

/-- The parameter-kind loop of lines 368-377: after a `VAR_POSITIONAL`
parameter no further parameter is allowed, and every parameter must be
`POSITIONAL_OR_KEYWORD` or `VAR_POSITIONAL`. -/
def checkVarArg : List Param → Bool → Except RegError Bool
  | [], found => .ok found
  | p :: ps, found =>
    if found then .error .varArgNotAtEnd
    else if p.kind = .varPositional then checkVarArg ps true
    else if p.kind = .positionalOrKeyword then checkVarArg ps found
    else .error .unsupportedParamKind

/-- Lines 379-383: when a var arg was found, `var_arg_param, *params =
params` takes the FIRST element of the parameter list as the var-arg
parameter (this is what the source does) and resolves its annotation. -/
def splitVarArg (found : Bool) (params : List Param) (clsTypevars : List Nat)
    (ctn : Option String) : Except RegError (Option TypeOrVarRef × List Param) :=
  if found then
    match params with
    | [] => .error .unpackEmptyParams
    | varArgParam :: rest =>
      match resolveHint varArgParam clsTypevars ctn with
      | .ok t => .ok (some t, rest)
      | .error e => .error e
  else .ok (none, params)

/-- `_BaseModule._register_function`, `egraph.py` lines 327-413, at the
level of the produced `FunctionDecl`: resolve the return type, strip and
check the contextual first parameter, check the parameter kinds, split
off the var-arg parameter, resolve the remaining parameter annotations,
and prepend the self type for a non-`__init__` method. -/
def registerFunction (returnAnn : Option PyAnn) (params0 : List Param)
    (firstArg : FirstArg) (clsTypevars : List Nat) (ctn : Option String)
    (isInit : Bool) : Except RegError FunctionDecl :=
  match resolveReturnType isInit firstArg returnAnn clsTypevars ctn with
  | .error e => .error e
  | .ok returnType =>
    match stripFirstParam firstArg params0 with
    | .error e => .error e
    | .ok params =>
      match checkVarArg params false with
      | .error e => .error e
      | .ok found =>
        match splitVarArg found params clsTypevars ctn with
        | .error e => .error e
        | .ok (varArgType, rest) =>
          match resolveParams rest clsTypevars ctn with
          | .error e => .error e
          | .ok argTypes =>
            .ok { argTypes :=
                    match firstArg, isInit with
                    | .selfType t, false => t :: argTypes
                    | _, _ => argTypes
                  returnType := returnType
                  varArgType := varArgType }

/-- A registered sort `A` used in concrete inputs. -/
def sortA : TypeOrVarRef := .withVars "A" []

/-- A registered sort `B` used in concrete inputs. -/
def sortB : TypeOrVarRef := .withVars "B" []

/-- A registered sort `C` used in concrete inputs. -/
def sortC : TypeOrVarRef := .withVars "C" []

/-- C4: the claim states that for a function with positional parameters
followed by a trailing variadic parameter, the argument `TypeRef`s are
the resolved positional annotations and the variadic tail `TypeRef` is
the resolved trailing annotation.  The code violates it: for
`f(x: A, *rest: B) -> C` the statement `var_arg_param, *params = params`
pops the FIRST parameter, so the produced `FunctionDecl` has variadic
tail type `A` (the first positional parameter's type) and argument types
`[B]` (the variadic annotation) — instead of argument types `[A]` and
tail `B`. -/
theorem c4_vararg_takes_first_param :
    registerFunction (some (.registeredSort sortC))
        [⟨"x", .positionalOrKeyword, some (.registeredSort sortA)⟩,
         ⟨"rest", .varPositional, some (.registeredSort sortB)⟩]
        .noFirst [] none false
      = .ok { argTypes := [sortB], returnType := sortC, varArgType := some sortA }
      ∧ registerFunction (some (.registeredSort sortC))
        [⟨"x", .positionalOrKeyword, some (.registeredSort sortA)⟩,
         ⟨"rest", .varPositional, some (.registeredSort sortB)⟩]
        .noFirst [] none false
      ≠ .ok { argTypes := [sortA], returnType := sortC, varArgType := some sortB } := by
  refine ⟨rfl, fun h => ?_⟩
  rw [show registerFunction (some (.registeredSort sortC))
        [⟨"x", .positionalOrKeyword, some (.registeredSort sortA)⟩,
         ⟨"rest", .varPositional, some (.registeredSort sortB)⟩]
        .noFirst [] none false
      = .ok { argTypes := [sortB], returnType := sortC, varArgType := some sortA } from rfl] at h
  simp [sortA, sortB] at h

/-! ## Class registration (`_BaseModule._class`, C6) -/

/-- The self type reference of the class under registration
(`egraph.py` line 165): `TypeRefWithVars(cls_name, tuple(ClassTypeVarRef(i)
for i in range(n_type_vars)))`. -/
def slfTypeRef (clsName : String) (n : Nat) : TypeOrVarRef :=
  .withVars clsName ((List.range n).map .classTypeVar)

/-- The per-method registration performed by `_BaseModule._class`
(`egraph.py` lines 178-222): `__init__` counts as a classmethod; the
first arg passed to `_register_function` is the marker `"cls"` for a
classmethod that is not `__init__`, and the self type reference
otherwise. -/
def registerClassMethodDecl (clsName : String) (clsTypevars : List Nat)
    (methodName : String) (isClassmethodWrapped : Bool)
    (returnAnn : Option PyAnn) (params : List Param) : Except RegError FunctionDecl :=
  let isInit : Bool := methodName == "__init__"
  let isClassmethod : Bool := isClassmethodWrapped || isInit
  let slf := slfTypeRef clsName clsTypevars.length
  let firstArg : FirstArg := if isClassmethod && !isInit then .clsMarker else .selfType slf
  registerFunction returnAnn params firstArg clsTypevars (some clsName) isInit

theorem registerFunction_firstArg_annotated (returnAnn : Option PyAnn)
    (firstArg : FirstArg) (clsTypevars : List Nat) (ctn : Option String) (isInit : Bool)
    (hfa : firstArg ≠ .noFirst) (first : Param) (rest : List Param)
    (hann : first.ann.isSome = true) :
    ∀ d, registerFunction returnAnn (first :: rest) firstArg clsTypevars ctn isInit ≠ .ok d := by
  intro d h
  unfold registerFunction at h
  cases hr : resolveReturnType isInit firstArg returnAnn clsTypevars ctn with
  | error e => simp only [hr] at h; exact Except.noConfusion h
  | ok rt =>
    have hs : stripFirstParam firstArg (first :: rest) = .error .firstArgAnnotated := by
      cases firstArg with
      | noFirst => exact absurd rfl hfa
      | clsMarker => simp [stripFirstParam, hann]
      | selfType t => simp [stripFirstParam, hann]
    simp only [hr, hs] at h
    exact Except.noConfusion h

theorem registerFunction_selfType_prepends (returnAnn : Option PyAnn)
    (params0 : List Param) (t : TypeOrVarRef) (clsTypevars : List Nat)
    (ctn : Option String) :
    ∀ d, registerFunction returnAnn params0 (.selfType t) clsTypevars ctn false = .ok d →
      ∃ ts, d.argTypes = t :: ts := by
  intro d h
  unfold registerFunction at h
  cases hr : resolveReturnType false (.selfType t) returnAnn clsTypevars ctn with
  | error e => simp only [hr] at h; exact Except.noConfusion h
  | ok rt =>
    cases hs : stripFirstParam (.selfType t) params0 with
    | error e => simp only [hr, hs] at h; exact Except.noConfusion h
    | ok params =>
      cases hc : checkVarArg params false with
      | error e => simp only [hr, hs, hc] at h; exact Except.noConfusion h
      | ok found =>
        cases hsp : splitVarArg found params clsTypevars ctn with
        | error e => simp only [hr, hs, hc, hsp] at h; exact Except.noConfusion h
        | ok pair =>
          obtain ⟨varArgType, rest⟩ := pair
          cases hm : resolveParams rest clsTypevars ctn with
          | error e => simp only [hr, hs, hc, hsp, hm] at h; exact Except.noConfusion h
          | ok argTypes =>
            simp only [hr, hs, hc, hsp, hm, Except.ok.injEq] at h
            exact ⟨argTypes, by rw [← h]⟩

theorem registerFunction_init_return (returnAnn : Option PyAnn)
    (params0 : List Param) (t : TypeOrVarRef) (clsTypevars : List Nat)
    (ctn : Option String) :
    ∀ d, registerFunction returnAnn params0 (.selfType t) clsTypevars ctn true = .ok d →
      d.returnType = t := by
  intro d h
  unfold registerFunction at h
  have hr : resolveReturnType true (.selfType t) returnAnn clsTypevars ctn = .ok t := rfl
  cases hs : stripFirstParam (.selfType t) params0 with
  | error e => simp only [hr, hs] at h; exact Except.noConfusion h
  | ok params =>
    cases hc : checkVarArg params false with
    | error e => simp only [hr, hs, hc] at h; exact Except.noConfusion h
    | ok found =>
      cases hsp : splitVarArg found params clsTypevars ctn with
      | error e => simp only [hr, hs, hc, hsp] at h; exact Except.noConfusion h
      | ok pair =>
        obtain ⟨varArgType, rest⟩ := pair
        cases hm : resolveParams rest clsTypevars ctn with
        | error e => simp only [hr, hs, hc, hsp, hm] at h; exact Except.noConfusion h
        | ok argTypes =>
          simp only [hr, hs, hc, hsp, hm, Except.ok.injEq] at h
          rw [← h]

/-- C6: when registering a class, a method or classmethod whose first
parameter carries an explicit annotation is rejected; for an instance
method (not classmethod-wrapped, not `__init__`) the enclosing sort's
self type, parameterized by the class type variables, is prepended to the
argument types; and for `__init__` that self type becomes the declared
return type of the produced `FunctionDecl`. -/
theorem c6_method_first_param_contextual (clsName : String) (clsTypevars : List Nat)
    (methodName : String) (cmw : Bool) (returnAnn : Option PyAnn)
    (first : Param) (rest : List Param) :
    (first.ann.isSome = true →
        ∀ d, registerClassMethodDecl clsName clsTypevars methodName cmw returnAnn
          (first :: rest) ≠ .ok d)
      ∧ (methodName ≠ "__init__" → cmw = false →
        ∀ d, registerClassMethodDecl clsName clsTypevars methodName cmw returnAnn
            (first :: rest) = .ok d →
          ∃ ts, d.argTypes = slfTypeRef clsName clsTypevars.length :: ts)
      ∧ (methodName = "__init__" →
        ∀ (d : FunctionDecl) (params' : List Param),
          registerClassMethodDecl clsName clsTypevars methodName cmw returnAnn params' = .ok d →
          d.returnType = slfTypeRef clsName clsTypevars.length) := by
  refine ⟨?_, ?_, ?_⟩
  · intro hann d h
    revert h
    unfold registerClassMethodDecl
    apply registerFunction_firstArg_annotated
    · split <;> simp
    · exact hann
  · intro hne hcmw d h
    have hinit : (methodName == "__init__") = false := by
      simpa using hne
    simp only [registerClassMethodDecl, hinit, hcmw, Bool.or_false, Bool.false_or,
      Bool.not_false, Bool.and_true, Bool.false_and, if_neg, Bool.false_eq_true,
      not_false_eq_true] at h
    exact registerFunction_selfType_prepends _ _ _ _ _ d (by simpa using h)
  · intro hinitName d params' h
    have hinit : (methodName == "__init__") = true := by
      simpa using hinitName
    simp only [registerClassMethodDecl, hinit, Bool.or_true, Bool.not_true,
      Bool.and_false, Bool.true_and, if_neg, Bool.false_eq_true, not_false_eq_true] at h
    exact registerFunction_init_return _ _ _ _ _ d (by simpa using h)

/-- C6 witness: registering `__init__(self)` on a class `Math` with no
type variables yields a `FunctionDecl` whose declared return type is the
self type reference of `Math`. -/
theorem c6_witness :
    FunctionDecl.returnType
        { argTypes := [], returnType := slfTypeRef "Math" 0, varArgType := none }
      = slfTypeRef "Math" 0 :=
  (c6_method_first_param_contextual "Math" [] "__init__" false none
      ⟨"self", .positionalOrKeyword, none⟩ []).2.2 rfl
    { argTypes := [], returnType := slfTypeRef "Math" 0, varArgType := none }
    [⟨"self", .positionalOrKeyword, none⟩] rfl

/-! ## Engine term serialization (C9) and extraction (C10)

Modelled from the spec: the serialization `TypedExprDecl.to_egg` /
`TypedExprDecl.from_egg` lives in the `egglog.declarations` module, which
is not among the provided sources (only its callers `EGraph.simplify`,
`EGraph.extract`, `EGraph._run_extract` are).  Per the spec, "terms cross
the boundary as an S-expression-shaped tree: `(callable-name arg1 arg2
...)` for calls, a bare symbol for variables, native tokens for primitive
literals", callables carry an engine-visible name that "must be unique
across distinct refs", and parsing looks the engine name back up in the
declarations. -/

/-- Modelled from the spec: the S-expression-shaped engine term form. -/
inductive EggExpr where
  | sym (name : String)
  | lit (value : LitDecl)
  | call (name : String) (args : List EggExpr)

/-- Modelled from the spec: one registered callable as the serializer
sees it — its `CallableRef`, its engine-visible name, and its resolved
return type. -/
structure EngineCallable where
  ref : CallableRef
  eggName : String
  returnTp : JustTypeRef
deriving DecidableEq

/-- The callable table of a `Declarations` registry, as used by the
serializer. -/
abbrev EngineDecls := List EngineCallable

/-- Lookup of a callable by its `CallableRef` (the `get_egg_fn`
direction). -/
def lookupByRef : EngineDecls → CallableRef → Option EngineCallable
  | [], _ => none
  | c :: cs, ref => if c.ref = ref then some c else lookupByRef cs ref

/-- Lookup of a callable by its engine-visible name (the `from_egg`
direction). -/
def lookupByEggName : EngineDecls → String → Option EngineCallable
  | [], _ => none
  | c :: cs, n => if c.eggName = n then some c else lookupByEggName cs n

/-- Lookup of a variable's type in a typing environment for bare
symbols. -/
def lookupVar : List (String × JustTypeRef) → String → Option JustTypeRef
  | [], _ => none
  | (n, tp) :: rest, name => if n = name then some tp else lookupVar rest name

/-- Errors of the serialization boundary (`EngineProtocolError`). -/
inductive SerError where
  | unregisteredCallable
  | unknownEggFunction
  | unboundSymbol
deriving DecidableEq

/-- Modelled from the spec: the engine-native sort of each literal kind
("native tokens for primitive literals (signed 64-bit integers, strings,
booleans, floats)"). -/
def litType : LitDecl → JustTypeRef
  | .int _ => .mk "i64" []
  | .str _ => .mk "String" []
  | .bool _ => .mk "Bool" []
  | .float _ => .mk "f64" []

mutual

/-- Modelled from the spec: serialization of an expression declaration to
the engine's term form — `(callable-name arg1 ...)` for calls, a bare
symbol for variables, a native token for literals. -/
def toEggExpr (d : EngineDecls) : ExprDecl → Except SerError EggExpr
  | .var n => .ok (.sym n)
  | .lit l => .ok (.lit l)
  | .call ref args =>
    match lookupByRef d ref with
    | some c =>
      match toEggList d args with
      | .ok gs => .ok (.call c.eggName gs)
      | .error e => .error e
    | none => .error .unregisteredCallable

/-- Serialization of an argument list, in order. -/
def toEggList (d : EngineDecls) : List ExprDecl → Except SerError (List EggExpr)
  | [] => .ok []
  | a :: as =>
    match toEggExpr d a with
    | .ok g =>
      match toEggList d as with
      | .ok gs => .ok (g :: gs)
      | .error e => .error e
    | .error e => .error e

end

mutual

/-- Modelled from the spec: parsing an engine term back into a
`TypedExprDecl` — a bare symbol is a variable typed by the environment, a
literal token carries its native sort, and a call looks up the engine
name to recover the `CallableRef` and the resolved return type. -/
def fromEggExpr (d : EngineDecls) (env : List (String × JustTypeRef)) :
    EggExpr → Except SerError TypedExprDecl
  | .sym n =>
    match lookupVar env n with
    | some tp => .ok ⟨tp, .var n⟩
    | none => .error .unboundSymbol
  | .lit l => .ok ⟨litType l, .lit l⟩
  | .call n args =>
    match lookupByEggName d n with
    | some c =>
      match fromEggList d env args with
      | .ok targs => .ok ⟨c.returnTp, .call c.ref (targs.map TypedExprDecl.expr)⟩
      | .error e => .error e
    | none => .error .unknownEggFunction

/-- Parsing of an argument list, in order. -/
def fromEggList (d : EngineDecls) (env : List (String × JustTypeRef)) :
    List EggExpr → Except SerError (List TypedExprDecl)
  | [] => .ok []
  | g :: gs =>
    match fromEggExpr d env g with
    | .ok t =>
      match fromEggList d env gs with
      | .ok ts => .ok (t :: ts)
      | .error e => .error e
    | .error e => .error e

end

/-- Well-formedness of the callable table: engine-visible names are
unique across distinct refs (spec 4.1), and refs are unique per scope. -/
def wellFormedDecls (d : EngineDecls) : Prop :=
  (d.map EngineCallable.eggName).Nodup ∧ (d.map EngineCallable.ref).Nodup

instance (d : EngineDecls) : Decidable (wellFormedDecls d) :=
  inferInstanceAs (Decidable (_ ∧ _))

mutual

/-- An expression is built from registered sorts and functions: every
variable is bound in the environment and every call's callable is
registered. -/
def okExpr (d : EngineDecls) (env : List (String × JustTypeRef)) : ExprDecl → Bool
  | .var n => (lookupVar env n).isSome
  | .lit _ => true
  | .call ref args => (lookupByRef d ref).isSome && okList d env args

/-- All expressions of a list are built from registered sorts and
functions. -/
def okList (d : EngineDecls) (env : List (String × JustTypeRef)) : List ExprDecl → Bool
  | [] => true
  | a :: as => okExpr d env a && okList d env as

end

/-- The resolved type synthesized for an expression: the environment type
of a variable, the native sort of a literal, the registered return type
of a call. -/
def synthType (d : EngineDecls) (env : List (String × JustTypeRef)) :
    ExprDecl → Option JustTypeRef
  | .var n => lookupVar env n
  | .lit l => some (litType l)
  | .call ref _ => (lookupByRef d ref).map EngineCallable.returnTp

theorem lookupByRef_some (d : EngineDecls) (ref : CallableRef) (c : EngineCallable)
    (h : lookupByRef d ref = some c) : c.ref = ref ∧ c ∈ d := by
  induction d with
  | nil => simp [lookupByRef] at h
  | cons c0 cs ih =>
    simp only [lookupByRef] at h
    split at h
    next heq =>
      obtain rfl : c0 = c := by injection h
      exact ⟨heq, List.mem_cons_self _ _⟩
    next =>
      obtain ⟨h1, h2⟩ := ih h
      exact ⟨h1, List.mem_cons_of_mem _ h2⟩

theorem lookupByEggName_of_mem (d : EngineDecls) (c : EngineCallable)
    (hnd : (d.map EngineCallable.eggName).Nodup) (hc : c ∈ d) :
    lookupByEggName d c.eggName = some c := by
  induction d with
  | nil => simp at hc
  | cons c0 cs ih =>
    simp only [List.map_cons, List.nodup_cons] at hnd
    rcases List.mem_cons.mp hc with rfl | hmem
    · simp [lookupByEggName]
    · have hne : c0.eggName ≠ c.eggName := by
        intro he
        exact hnd.1 (he ▸ List.mem_map_of_mem _ hmem)
      simp [lookupByEggName, hne, ih hnd.2 hmem]

theorem synthType_isSome (d : EngineDecls) (env : List (String × JustTypeRef)) :
    ∀ e : ExprDecl, okExpr d env e = true → ∃ tp, synthType d env e = some tp := by
  intro e hok
  cases e with
  | var n =>
    simp only [okExpr] at hok
    simpa [synthType] using Option.isSome_iff_exists.mp hok
  | lit l => exact ⟨litType l, rfl⟩
  | call ref args =>
    simp only [okExpr, Bool.and_eq_true] at hok
    obtain ⟨c, hc⟩ := Option.isSome_iff_exists.mp hok.1
    exact ⟨c.returnTp, by simp [synthType, hc]⟩

mutual

theorem toFromEgg_expr (d : EngineDecls) (env : List (String × JustTypeRef))
    (hwf : wellFormedDecls d) :
    ∀ (e : ExprDecl) (tp : JustTypeRef), okExpr d env e = true →
      synthType d env e = some tp →
      ∃ g, toEggExpr d e = .ok g ∧ fromEggExpr d env g = .ok ⟨tp, e⟩
  | .var n, tp => by
    intro hok hty
    simp only [synthType] at hty
    exact ⟨.sym n, rfl, by simp [fromEggExpr, hty]⟩
  | .lit l, tp => by
    intro hok hty
    simp only [synthType, Option.some.injEq] at hty
    exact ⟨.lit l, rfl, by simp [fromEggExpr, hty]⟩
  | .call ref args, tp => by
    intro hok hty
    simp only [okExpr, Bool.and_eq_true] at hok
    obtain ⟨hlk, hargs⟩ := hok
    obtain ⟨c, hc⟩ := Option.isSome_iff_exists.mp hlk
    obtain ⟨hcref, hcmem⟩ := lookupByRef_some d ref c hc
    have htp : c.returnTp = tp := by
      simp only [synthType, hc, Option.map_some', Option.some.injEq] at hty
      exact hty
    have hback : lookupByEggName d c.eggName = some c :=
      lookupByEggName_of_mem d c hwf.1 hcmem
    obtain ⟨gs, ts, h1, h2, h3⟩ := toFromEgg_list d env hwf args hargs
    refine ⟨.call c.eggName gs, ?_, ?_⟩
    · simp [toEggExpr, hc, h1]
    · simp [fromEggExpr, hback, h2, h3, hcref, htp]

theorem toFromEgg_list (d : EngineDecls) (env : List (String × JustTypeRef))
    (hwf : wellFormedDecls d) :
    ∀ es : List ExprDecl, okList d env es = true →
      ∃ (gs : List EggExpr) (ts : List TypedExprDecl),
        toEggList d es = .ok gs ∧ fromEggList d env gs = .ok ts
          ∧ ts.map TypedExprDecl.expr = es
  | [] => by
    intro _
    exact ⟨[], [], rfl, rfl, rfl⟩
  | e :: es => by
    intro hok
    simp only [okList, Bool.and_eq_true] at hok
    obtain ⟨hok1, hok2⟩ := hok
    obtain ⟨tp, hty⟩ := synthType_isSome d env e hok1
    obtain ⟨g, hg1, hg2⟩ := toFromEgg_expr d env hwf e tp hok1 hty
    obtain ⟨gs, ts, h1, h2, h3⟩ := toFromEgg_list d env hwf es hok2
    exact ⟨g :: gs, ⟨tp, e⟩ :: ts, by simp [toEggList, hg1, h1],
      by simp [fromEggList, hg2, h2], by simp [h3]⟩

end

/-- C9: for any `TypedExprDecl` built from registered sorts and functions
(well-formed callable table, every call registered, every variable bound,
type synthesized from the registrations), serializing it to the engine's
term form and parsing that form back yields a structurally equal
`TypedExprDecl`. -/
theorem c9_serialize_parse_roundtrip (d : EngineDecls)
    (env : List (String × JustTypeRef)) (t : TypedExprDecl)
    (hwf : wellFormedDecls d) (hok : okExpr d env t.expr = true)
    (hty : synthType d env t.expr = some t.tp) :
    ∃ g, toEggExpr d t.expr = .ok g ∧ fromEggExpr d env g = .ok t := by
  obtain ⟨g, h1, h2⟩ := toFromEgg_expr d env hwf t.expr t.tp hok hty
  exact ⟨g, h1, by cases t; exact h2⟩

/-- A one-function callable table for the serialization witnesses. -/
def witnessDecls : EngineDecls :=
  [⟨.function "add", "add", .mk "Num" []⟩]

/-- A concrete typed expression `add(1)` over `witnessDecls`. -/
def witnessTypedExpr : TypedExprDecl :=
  ⟨.mk "Num" [], .call (.function "add") [.lit (.int 1)]⟩

/-- C9 witness: the concrete expression `add(1)` serializes and parses
back to itself. -/
theorem c9_witness :
    ∃ g, toEggExpr witnessDecls witnessTypedExpr.expr = .ok g
      ∧ fromEggExpr witnessDecls [] g = .ok witnessTypedExpr :=
  c9_serialize_parse_roundtrip witnessDecls [] witnessTypedExpr
    (by constructor <;> decide) (by decide) (by decide)

/-- Errors of `EGraph.extract` (`ValueError`/`RuntimeError` at
`egraph.py` lines 699, 716, and serialization failures). -/
inductive ExtractError where
  | serializationFailed (e : SerError)
  | noExtractReport
  | parseFailed (e : SerError)
  | typeMismatch
deriving DecidableEq

/-- `EGraph.extract` together with `EGraph._run_extract`, `egraph.py`
lines 690-700 and 712-717: serialize the input expression, send the
`Extract` command (the engine's reply is the `report` parameter, `none`
when no extract report was saved), parse the reported term, and fail
with `RuntimeError` unless the parsed type equals the input type. -/
def egraphExtract (d : EngineDecls) (report : Option EggExpr)
    (typedExpr : TypedExprDecl) : Except ExtractError TypedExprDecl :=
  match toEggExpr d typedExpr.expr with
  | .error e => .error (.serializationFailed e)
  | .ok _ =>
    match report with
    | none => .error .noExtractReport
    | some g =>
      match fromEggExpr d [] g with
      | .error e => .error (.parseFailed e)
      | .ok newTyped =>
        if newTyped.tp = typedExpr.tp then .ok newTyped
        else .error .typeMismatch

/-- C10: `EGraph.extract` preserves the resolved type: whenever it
returns an expression, that expression's resolved type reference equals
the input's; and when the engine yields no extract report it errors
rather than returning anything. -/
theorem c10_extract_preserves_type (d : EngineDecls) (report : Option EggExpr)
    (t : TypedExprDecl) :
    (∀ r, egraphExtract d report t = .ok r → r.tp = t.tp)
      ∧ (report = none → ∀ r, egraphExtract d report t ≠ .ok r) := by
  constructor
  · intro r h
    unfold egraphExtract at h
    cases hse : toEggExpr d t.expr with
    | error e => simp only [hse] at h; exact Except.noConfusion h
    | ok g0 =>
      cases report with
      | none => simp only [hse] at h; exact Except.noConfusion h
      | some g =>
        cases hp : fromEggExpr d [] g with
        | error e => simp only [hse, hp] at h; exact Except.noConfusion h
        | ok newTyped =>
          simp only [hse, hp] at h
          split at h
          next heq =>
            obtain rfl : newTyped = r := by injection h
            exact heq
          next => exact Except.noConfusion h
  · rintro rfl r h
    unfold egraphExtract at h
    cases hse : toEggExpr d t.expr with
    | error e => simp only [hse] at h; exact Except.noConfusion h
    | ok g0 => simp only [hse] at h; exact Except.noConfusion h

/-- C10 witness: extracting over `witnessDecls` with a concrete engine
report whose parsed type matches returns an expression of the input's
type. -/
theorem c10_witness :
    TypedExprDecl.tp ⟨.mk "Num" [], .call (.function "add") []⟩
      = TypedExprDecl.tp witnessTypedExpr :=
  (c10_extract_preserves_type witnessDecls (some (.call "add" [])) witnessTypedExpr).1
    ⟨.mk "Num" [], .call (.function "add") []⟩ rfl

end Egglog
